import Mathlib

/-
Verification of the progress-simulator hooks of this repository.

Two variants exist in the source:
* `startDynamicProgress` in `src/client/src/hooks/useProgressLoader.ts`
  (weight-based steps, wraps a real asynchronous operation, caps the
  interpolated percentage at 98);
* `startProgress` in `src/unnamed/part_002` (duration-based steps,
  sequential animation, clamps at 100, auto-completes after the sum of
  the step durations).

JavaScript numeric semantics matter here (division by zero yields
Infinity or NaN, `Math.min` propagates NaN, a Promise object is always
truthy), so the embedding works over a small JS-number type `JSNum`
rather than bare rationals, with a bridge to rational arithmetic for
the non-degenerate cases.
-/

/-- JavaScript number semantics restricted to what the hooks use:
finite values (modelled as rationals), the two infinities and NaN. -/
inductive JSNum where
  | num (q : ℚ)
  | posInf
  | negInf
  | nan
deriving DecidableEq

namespace JSNum

/-- JS addition. -/
def add : JSNum → JSNum → JSNum
  | nan, _ => nan
  | _, nan => nan
  | posInf, negInf => nan
  | negInf, posInf => nan
  | posInf, _ => posInf
  | _, posInf => posInf
  | negInf, _ => negInf
  | _, negInf => negInf
  | num a, num b => num (a + b)

/-- JS multiplication. -/
def mul : JSNum → JSNum → JSNum
  | nan, _ => nan
  | _, nan => nan
  | posInf, posInf => posInf
  | posInf, negInf => negInf
  | negInf, posInf => negInf
  | negInf, negInf => posInf
  | posInf, num b => if b = 0 then nan else if 0 < b then posInf else negInf
  | num a, posInf => if a = 0 then nan else if 0 < a then posInf else negInf
  | negInf, num b => if b = 0 then nan else if 0 < b then negInf else posInf
  | num a, negInf => if a = 0 then nan else if 0 < a then negInf else posInf
  | num a, num b => num (a * b)

/-- JS division (positive zero only; the hooks never produce a negative
zero denominator). -/
def div : JSNum → JSNum → JSNum
  | nan, _ => nan
  | _, nan => nan
  | posInf, posInf => nan
  | posInf, negInf => nan
  | negInf, posInf => nan
  | negInf, negInf => nan
  | num _, posInf => num 0
  | num _, negInf => num 0
  | posInf, num b => if 0 ≤ b then posInf else negInf
  | negInf, num b => if 0 ≤ b then negInf else posInf
  | num a, num b =>
      if b = 0 then (if a = 0 then nan else if 0 < a then posInf else negInf)
      else num (a / b)

/-- `Math.min(x, c)` against a finite literal `c`: NaN propagates. -/
def minC : JSNum → ℚ → JSNum
  | nan, _ => nan
  | posInf, c => num c
  | negInf, _ => negInf
  | num a, c => num (min a c)

/-- JS strict greater-than; every comparison involving NaN is false. -/
def jgt : JSNum → JSNum → Bool
  | nan, _ => false
  | _, nan => false
  | posInf, posInf => false
  | posInf, _ => true
  | negInf, _ => false
  | num _, posInf => false
  | num _, negInf => true
  | num a, num b => decide (b < a)

end JSNum

/-- JS values as far as truthiness tests in the hooks go. -/
inductive JSValue where
  | undefined
  | null
  | boolean (b : Bool)
  | number (n : JSNum)
  | string (s : String)
  | object (id : ℕ)
deriving DecidableEq

/-- JS truthiness: `undefined`, `null`, `false`, `0`, `NaN` and the
empty string are falsy; every object is truthy. -/
def truthy : JSValue → Bool
  | .undefined => false
  | .null => false
  | .boolean b => b
  | .number (.num q) => decide (q ≠ 0)
  | .number .nan => false
  | .number _ => true
  | .string s => decide (s ≠ "")
  | .object _ => true

/-- `ProgressStep` of `src/client/src/hooks/useProgressLoader.ts`:
`{ id: string; label: string; weight: number }`. -/
structure ProgressStep where
  id : String
  label : String
  weight : ℚ
deriving DecidableEq

/-- The three reactive fields the hook exposes: `progress`,
`currentStep`, `isLoading`. -/
structure DisplayState where
  progress : JSNum
  currentStep : String
  isLoading : Bool
deriving DecidableEq

/-- The closure-local mutable variables of `startDynamicProgress`:
`currentWeight` and `stepIndex`. -/
structure TickState where
  currentWeight : ℚ
  stepIndex : ℕ
deriving DecidableEq

/-- `const stepDuration = 2000` (line 32 of useProgressLoader.ts). -/
def stepDuration : ℕ := 2000

/-- `steps.reduce((sum, step) => sum + step.weight, 0)` (line 19). -/
def totalWeightOf (steps : List ProgressStep) : ℚ :=
  (steps.map (fun s => s.weight)).sum

/-- `steps[i].weight`, defaulting to 0 out of range (every access in the
source is guarded in range). -/
def weightAt (steps : List ProgressStep) (i : ℕ) : ℚ :=
  ((steps[i]?).map (fun s => s.weight)).getD 0

/-- `steps[i].label`, defaulting to "" out of range. -/
def labelAt (steps : List ProgressStep) (i : ℕ) : String :=
  ((steps[i]?).map (fun s => s.label)).getD ""

/-- `Math.min(Math.floor(elapsed / stepDuration), steps.length - 1)`
(line 33): in JS this is `-1` for an empty list, so the result lives in ℤ. -/
def targetStepOf (steps : List ProgressStep) (elapsed : ℕ) : ℤ :=
  min ((elapsed / stepDuration : ℕ) : ℤ) ((steps.length : ℤ) - 1)

/-- Lines 35-38: when the target step is strictly ahead, add the current
step's weight (only the current one, skipped steps are not accumulated)
and move the index to the target. -/
def tickAdvance (steps : List ProgressStep) (elapsed : ℕ) (st : TickState) :
    TickState :=
  if targetStepOf steps elapsed > (st.stepIndex : ℤ) then
    { currentWeight := st.currentWeight + weightAt steps st.stepIndex,
      stepIndex := (targetStepOf steps elapsed).toNat }
  else st

/-- Lines 44-45: `stepElapsed = elapsed - stepIndex * stepDuration`,
`stepProgress = Math.min(stepElapsed / stepDuration, 1)`. -/
def stepFractionOf (st : TickState) (elapsed : ℕ) : ℚ :=
  min (((elapsed : ℚ) - (st.stepIndex : ℚ) * (stepDuration : ℚ)) /
    (stepDuration : ℚ)) 1

/-- `currentWeight + steps[stepIndex].weight * stepProgress`
(lines 46 and 48, numerator of the percentage). -/
def rawProgressOf (steps : List ProgressStep) (st : TickState)
    (elapsed : ℕ) : ℚ :=
  st.currentWeight + weightAt steps st.stepIndex * stepFractionOf st elapsed

/-- Lines 48-49 under JS semantics:
`Math.min((currentWeight + currentStepWeight) / totalWeight * 98, 98)`. -/
def tickProgressJS (steps : List ProgressStep) (st : TickState)
    (elapsed : ℕ) : JSNum :=
  JSNum.minC
    (JSNum.mul
      (JSNum.div (JSNum.num (rawProgressOf steps st elapsed))
        (JSNum.num (totalWeightOf steps)))
      (JSNum.num 98)) 98

/-- The same percentage in plain rational arithmetic; agrees with
`tickProgressJS` whenever the total weight is nonzero. -/
def tickProgressQ (steps : List ProgressStep) (st : TickState)
    (elapsed : ℕ) : ℚ :=
  min (rawProgressOf steps st elapsed / totalWeightOf steps * 98) 98

/-- Lines 40-49: the writes guarded by `stepIndex < steps.length`. -/
def tickDisplay (steps : List ProgressStep) (elapsed : ℕ) (st : TickState)
    (d : DisplayState) : DisplayState :=
  if st.stepIndex < steps.length then
    { d with
      currentStep := labelAt steps st.stepIndex,
      progress := tickProgressJS steps st elapsed }
  else d

/-- One execution of `animateProgress` (lines 29-58) at a given elapsed
time, acting on the closure state and the display state. -/
def animateProgress (steps : List ProgressStep) (elapsed : ℕ)
    (p : TickState × DisplayState) : TickState × DisplayState :=
  let st2 := tickAdvance steps elapsed p.1
  (st2, tickDisplay steps elapsed st2 p.2)

/-- Closure state at entry: `currentWeight = 0`, `stepIndex = 0`. -/
def initTick : TickState := ⟨0, 0⟩

/-- Lines 16-17: `setIsLoading(true); setProgress(0)`. -/
def startDisplayInit (d : DisplayState) : DisplayState :=
  { d with isLoading := true, progress := JSNum.num 0 }

/-- The run of `startDynamicProgress` over a schedule of elapsed times:
initialisation followed by one `animateProgress` tick per schedule entry. -/
def runDyn (steps : List ProgressStep) (sched : List ℕ)
    (d0 : DisplayState) : TickState × DisplayState :=
  sched.foldl (fun p e => animateProgress steps e p)
    (initTick, startDisplayInit d0)

/-- Display state after the ticks of a run. -/
def dynDisplayAfter (steps : List ProgressStep) (sched : List ℕ)
    (d0 : DisplayState) : DisplayState :=
  (runDyn steps sched d0).2

/-- The progress values written by the ticks of a schedule (a tick writes
only when `stepIndex < steps.length`). -/
def writtenTraceJS (steps : List ProgressStep) :
    List ℕ → TickState → List JSNum
  | [], _ => []
  | e :: es, st =>
      let st2 := tickAdvance steps e st
      if st2.stepIndex < steps.length then
        tickProgressJS steps st2 e :: writtenTraceJS steps es st2
      else writtenTraceJS steps es st2

/-- The same trace in rational arithmetic (no write guard: for a
non-empty step list the guard always holds). -/
def traceQ (steps : List ProgressStep) : List ℕ → TickState → List ℚ
  | [], _ => []
  | e :: es, st =>
      let st2 := tickAdvance steps e st
      tickProgressQ steps st2 e :: traceQ steps es st2

/-- Line 69: the terminal label written on success. -/
def completeLabel : String := "Processing complete! Loading results..."

/-- Line 73: the delay before `setIsLoading(false)` on success. -/
def loadingFalseDelayMs : ℕ := 500

/-- Firing the pending `setTimeout(() => setIsLoading(false), ...)`. -/
def afterLoadingTimeout (d : DisplayState) : DisplayState :=
  { d with isLoading := false }

/-- Lines 63-79: settlement of the wrapped operation. On fulfilment the
hook sets progress to 100 and the terminal label, schedules
`setIsLoading(false)` after 500ms, and returns the resolved value; on
rejection it sets `isLoading` to false at once (no timeout) and rethrows. -/
def settleDyn {ε α : Type} (d : DisplayState) (outcome : Except ε α) :
    DisplayState × Option ℕ × Except ε α :=
  match outcome with
  | .ok a =>
      ({ d with progress := JSNum.num 100, currentStep := completeLabel },
        some loadingFalseDelayMs, .ok a)
  | .error e =>
      ({ d with isLoading := false }, none, .error e)

/-- Lines 82-86: `resetProgress` zeroes progress, clears the label and
sets `isLoading` to false, ignoring prior state. -/
def resetProgress (_ : DisplayState) : DisplayState :=
  { progress := JSNum.num 0, currentStep := "", isLoading := false }

/-- Settlement states of the wrapped promise. -/
inductive PromiseState where
  | pending
  | fulfilled
  | rejected
deriving DecidableEq

/-- The value of the `apiPromise` binding tested by `if (apiPromise)`
(line 55): the binding holds the same Promise object in every settlement
state. -/
def apiPromiseBinding (_ : PromiseState) : JSValue :=
  JSValue.object 0

/-- Line 55: `if (apiPromise) { requestAnimationFrame(animateProgress) }` —
whether the tick reschedules itself. -/
def animateContinues (ps : PromiseState) : Bool :=
  truthy (apiPromiseBinding ps)

/-- Modelled from the spec: `completeProgress()` is listed as a public
operation in spec §4.1 and §6 but no definition of it exists under
`src/` (the return objects of both packed hook variants expose only the
start and reset operations). Per the spec's words it sets progress to
100, sets the fixed "complete" label, and schedules `isRunning=false`
after the same fixed 500ms delay. -/
def completeProgress (d : DisplayState) : DisplayState × ℕ :=
  ({ d with progress := JSNum.num 100, currentStep := completeLabel },
    loadingFalseDelayMs)

/-- `ProgressStep` of `src/unnamed/part_002`:
`{ id: string; label: string; duration: number }` (named apart to avoid a
clash with the weight-based record). -/
structure DurationStep where
  id : String
  label : String
  duration : ℕ
deriving DecidableEq

/-- `steps.reduce((sum, step) => sum + step.duration, 0)` (line 18 of
part_002). -/
def durTotalOf (steps : List DurationStep) : ℕ :=
  (steps.map (fun s => s.duration)).sum

/-- Line 27 of part_002: `(step.duration / totalDuration) * 100`. -/
def stepShare (duration total : ℕ) : JSNum :=
  JSNum.mul
    (JSNum.div (JSNum.num (duration : ℚ)) (JSNum.num (total : ℚ)))
    (JSNum.num 100)

/-- Lines 29-43 of part_002: one `animateStep` tick. Past the step's
duration the step's share is added in full; inside the step the share is
scaled by `stepElapsed / step.duration`; either way the displayed value
is clamped by `Math.min(..., 100)`. -/
def stepTick (currentProgress share : JSNum) (stepElapsed duration : ℕ) :
    JSNum :=
  if duration ≤ stepElapsed then
    JSNum.minC (JSNum.add currentProgress share) 100
  else
    JSNum.minC
      (JSNum.add currentProgress
        (JSNum.mul (JSNum.num ((stepElapsed : ℚ) / (duration : ℚ))) share))
      100

/-- Outcome of the awaited main flow of `startProgress` (part_002). -/
structure Part002Run where
  display : DisplayState
  completionDelayMs : ℕ
  callsOnComplete : Bool
deriving DecidableEq

/-- The sequential main flow of `startProgress` (part_002 lines 14-58):
`setIsLoading(true); setProgress(0)`, then for each step set its label
and await its duration, then unconditionally `setProgress(100)` and
schedule `setIsLoading(false)` (and the `onComplete` callback) 500ms
later. -/
def startProgressMainFlow (steps : List DurationStep) (d : DisplayState) :
    Part002Run :=
  let dStart : DisplayState := { d with isLoading := true, progress := JSNum.num 0 }
  let dLoop : DisplayState :=
    steps.foldl (fun acc s => { acc with currentStep := s.label }) dStart
  { display := { dLoop with progress := JSNum.num 100 },
    completionDelayMs := 500,
    callsOnComplete := true }

/-- Firing the 500ms timeout at the end of `startProgress`. -/
def part002AfterTimeout (r : Part002Run) : DisplayState :=
  { r.display with isLoading := false }

/-- Wall-clock time from `startProgress` entry to its terminal state:
the awaited step durations plus the 500ms timeout. -/
def elapsedToTerminalMs (steps : List DurationStep) : ℕ :=
  durTotalOf steps + 500

theorem weightAt_nonneg (steps : List ProgressStep)
    (hw : ∀ s ∈ steps, 0 ≤ s.weight) (i : ℕ) : 0 ≤ weightAt steps i := by
  unfold weightAt
  cases h : steps[i]? with
  | none => simp
  | some s => simpa using hw s (List.getElem?_mem h)

theorem stepDuration_mul_target_toNat_le (steps : List ProgressStep) (e : ℕ) :
    stepDuration * (targetStepOf steps e).toNat ≤ e := by
  have h1 : targetStepOf steps e ≤ ((e / stepDuration : ℕ) : ℤ) :=
    min_le_left _ _
  have h2 : (targetStepOf steps e).toNat ≤ e / stepDuration :=
    Int.toNat_le.mpr h1
  calc stepDuration * (targetStepOf steps e).toNat
      ≤ stepDuration * (e / stepDuration) := Nat.mul_le_mul_left _ h2
    _ ≤ e := Nat.mul_div_le e stepDuration

theorem tickAdvance_idx_le (steps : List ProgressStep) (e : ℕ)
    (st : TickState) (h : st.stepIndex + 1 ≤ steps.length) :
    (tickAdvance steps e st).stepIndex + 1 ≤ steps.length := by
  unfold tickAdvance
  split
  case isTrue hgt =>
    have h1 : targetStepOf steps e ≤ (steps.length : ℤ) - 1 := min_le_right _ _
    simp only
    omega
  case isFalse _ => exact h

theorem stepFractionOf_le_one (st : TickState) (e : ℕ) :
    stepFractionOf st e ≤ 1 :=
  min_le_right _ _

theorem stepFractionOf_mono (st : TickState) (e1 e2 : ℕ) (hle : e1 ≤ e2) :
    stepFractionOf st e1 ≤ stepFractionOf st e2 := by
  unfold stepFractionOf
  refine min_le_min (div_le_div_of_nonneg_right ?_ (by norm_num [stepDuration])) le_rfl
  have : (e1 : ℚ) ≤ (e2 : ℚ) := by exact_mod_cast hle
  linarith

theorem stepFractionOf_nonneg (st : TickState) (e : ℕ)
    (h : stepDuration * st.stepIndex ≤ e) : 0 ≤ stepFractionOf st e := by
  unfold stepFractionOf
  refine le_min (div_nonneg ?_ (by norm_num [stepDuration])) (by norm_num)
  have h2 : ((stepDuration * st.stepIndex : ℕ) : ℚ) ≤ ((e : ℕ) : ℚ) := by
    exact_mod_cast h
  push_cast at h2
  linarith

theorem rawProgress_mono (steps : List ProgressStep)
    (hw : ∀ s ∈ steps, 0 ≤ s.weight) (st : TickState) (e1 e2 : ℕ)
    (hle : e1 ≤ e2) :
    rawProgressOf steps st e1 ≤
      rawProgressOf steps (tickAdvance steps e2 st) e2 := by
  have hwa : 0 ≤ weightAt steps st.stepIndex := weightAt_nonneg steps hw _
  unfold rawProgressOf tickAdvance
  split
  case isTrue hgt =>
    simp only
    have h1 : weightAt steps st.stepIndex * stepFractionOf st e1 ≤
        weightAt steps st.stepIndex :=
      calc weightAt steps st.stepIndex * stepFractionOf st e1
          ≤ weightAt steps st.stepIndex * 1 :=
            mul_le_mul_of_nonneg_left (stepFractionOf_le_one st e1) hwa
        _ = weightAt steps st.stepIndex := mul_one _
    have h2 : 0 ≤ weightAt steps ((targetStepOf steps e2).toNat) *
        stepFractionOf ⟨st.currentWeight + weightAt steps st.stepIndex,
          (targetStepOf steps e2).toNat⟩ e2 := by
      refine mul_nonneg (weightAt_nonneg steps hw _) ?_
      exact stepFractionOf_nonneg _ e2
        (by simpa using stepDuration_mul_target_toNat_le steps e2)
    simp only [TickState.stepIndex] at h2 ⊢
    linarith
  case isFalse _ =>
    have hf := stepFractionOf_mono st e1 e2 hle
    have := mul_le_mul_of_nonneg_left hf hwa
    linarith

theorem tickProgressQ_mono (steps : List ProgressStep)
    (hT : 0 < totalWeightOf steps) {st1 st2 : TickState} {e1 e2 : ℕ}
    (h : rawProgressOf steps st1 e1 ≤ rawProgressOf steps st2 e2) :
    tickProgressQ steps st1 e1 ≤ tickProgressQ steps st2 e2 := by
  unfold tickProgressQ
  refine min_le_min ?_ le_rfl
  refine mul_le_mul_of_nonneg_right ?_ (by norm_num)
  exact div_le_div_of_nonneg_right h hT.le

theorem traceQ_chain (steps : List ProgressStep)
    (hw : ∀ s ∈ steps, 0 ≤ s.weight) (hT : 0 < totalWeightOf steps) :
    ∀ (sched : List ℕ) (st : TickState),
      List.Chain' (· ≤ ·) sched →
      List.Chain' (· ≤ ·) (traceQ steps sched st) := by
  intro sched
  induction sched with
  | nil => intro st _; exact List.chain'_nil
  | cons e es ih =>
    intro st hch
    cases es with
    | nil => simp [traceQ]
    | cons e2 es2 =>
      rcases List.chain'_cons.mp hch with ⟨hle2, hch2⟩
      have hmono := rawProgress_mono steps hw (tickAdvance steps e st) e e2
        hle2
      simp only [traceQ]
      refine List.chain'_cons.mpr ⟨?_, ?_⟩
      · exact tickProgressQ_mono steps hT hmono
      · have := ih (tickAdvance steps e st) hch2
        simpa [traceQ] using this

theorem tickProgressJS_eq_num (steps : List ProgressStep) (st : TickState)
    (e : ℕ) (hT : totalWeightOf steps ≠ 0) :
    tickProgressJS steps st e = JSNum.num (tickProgressQ steps st e) := by
  simp [tickProgressJS, tickProgressQ, JSNum.div, JSNum.mul, JSNum.minC, hT]

theorem writtenTraceJS_eq (steps : List ProgressStep)
    (hT : totalWeightOf steps ≠ 0) :
    ∀ (sched : List ℕ) (st : TickState), st.stepIndex + 1 ≤ steps.length →
      writtenTraceJS steps sched st =
        (traceQ steps sched st).map JSNum.num := by
  intro sched
  induction sched with
  | nil => intro st _; simp [writtenTraceJS, traceQ]
  | cons e es ih =>
    intro st hidx
    have hidx2 : (tickAdvance steps e st).stepIndex + 1 ≤ steps.length :=
      tickAdvance_idx_le steps e st hidx
    have hguard : (tickAdvance steps e st).stepIndex < steps.length := by
      omega
    simp [writtenTraceJS, traceQ, hguard,
      tickProgressJS_eq_num steps _ e hT, ih _ hidx2]

theorem tickDisplay_isLoading (steps : List ProgressStep) (e : ℕ)
    (st : TickState) (d : DisplayState) :
    (tickDisplay steps e st d).isLoading = d.isLoading := by
  unfold tickDisplay
  split <;> rfl

theorem runDyn_isLoading (steps : List ProgressStep) (sched : List ℕ)
    (d0 : DisplayState) : (runDyn steps sched d0).2.isLoading = true := by
  unfold runDyn
  suffices h : ∀ (p : TickState × DisplayState), p.2.isLoading = true →
      (sched.foldl (fun p e => animateProgress steps e p) p).2.isLoading =
        true by
    exact h _ (by simp [startDisplayInit])
  induction sched with
  | nil => intro p hp; exact hp
  | cons e es ih =>
    intro p hp
    exact ih _ (by simp [animateProgress, tickDisplay_isLoading, hp])

theorem jgt_minC_false (x : JSNum) (c : ℚ) :
    JSNum.jgt (JSNum.minC x c) (JSNum.num c) = false := by
  cases x with
  | num a =>
      simp only [JSNum.minC, JSNum.jgt]
      exact decide_eq_false (not_lt.mpr (min_le_right a c))
  | posInf =>
      simp only [JSNum.minC, JSNum.jgt]
      exact decide_eq_false (lt_irrefl c)
  | negInf => rfl
  | nan => rfl

/-- C1 (amended): while a run is in progress, the operation-tracking
variant never writes a progress value exceeding 98 (every written value
is clamped by `Math.min(·, 98)`), and the steps-only variant
`startProgress` clamps at 100 — not 90 — so its written values never
exceed 100. -/
theorem progress_never_exceeds_caps (steps : List ProgressStep)
    (st : TickState) (e : ℕ) (cp sh : JSNum) (se du : ℕ) :
    JSNum.jgt (tickProgressJS steps st e) (JSNum.num 98) = false ∧
    JSNum.jgt (stepTick cp sh se du) (JSNum.num 100) = false := by
  constructor
  · unfold tickProgressJS
    exact jgt_minC_false _ 98
  · unfold stepTick
    split <;> exact jgt_minC_false _ 100

/-- C1 (counterexample): in the steps-only variant, a single step of
duration 2000 has share 100; the tick at 1900 elapsed — before the step
completes — writes 95, which exceeds the claimed cap of 90. -/
theorem startProgress_exceeds_90 :
    stepShare 2000 2000 = JSNum.num 100 ∧
    stepTick (JSNum.num 0) (stepShare 2000 2000) 1900 2000 = JSNum.num 95 ∧
    JSNum.jgt (JSNum.num 95) (JSNum.num 90) = true ∧
    1900 < 2000 := by
  refine ⟨?_, ?_, by decide, by decide⟩
  · norm_num [stepShare, JSNum.div, JSNum.mul]
  · norm_num [stepTick, stepShare, JSNum.div, JSNum.mul, JSNum.add,
      JSNum.minC]

/-- C2: for every non-empty step list with positive weights and every
non-decreasing tick schedule, the progress values written by the ticks
of a `startDynamicProgress` run are non-decreasing: each later tick's
value is at least every earlier tick's value. -/
theorem startDynamicProgress_monotone (steps : List ProgressStep)
    (sched : List ℕ) (hne : steps ≠ [])
    (hw : ∀ s ∈ steps, 0 < s.weight)
    (hs : List.Chain' (· ≤ ·) sched) :
    writtenTraceJS steps sched initTick =
      (traceQ steps sched initTick).map JSNum.num ∧
    List.Pairwise (· ≤ ·) (traceQ steps sched initTick) := by
  have hw0 : ∀ s ∈ steps, 0 ≤ s.weight := fun s hs2 => le_of_lt (hw s hs2)
  have hT : 0 < totalWeightOf steps := by
    unfold totalWeightOf
    apply List.sum_pos
    · intro x hx
      rcases List.mem_map.mp hx with ⟨s, hs3, rfl⟩
      exact hw s hs3
    · simpa using hne
  have hlen : 0 < steps.length := List.length_pos.mpr hne
  refine ⟨?_, ?_⟩
  · exact writtenTraceJS_eq steps (ne_of_gt hT) sched initTick
      (by simp [initTick]; omega)
  · exact List.chain'_iff_pairwise.mp
      (traceQ_chain steps hw0 hT sched initTick hs)

/-- C2 witness at a concrete run: one step of weight 1, ticks at 0,
1000 and 2500. -/
theorem startDynamicProgress_monotone_witness :
    ([⟨"a", "Step A", 1⟩] : List ProgressStep) ≠ [] ∧
    List.Pairwise (· ≤ ·)
      (traceQ [⟨"a", "Step A", 1⟩] [0, 1000, 2500] initTick) :=
  ⟨by decide,
    (startDynamicProgress_monotone [⟨"a", "Step A", 1⟩] [0, 1000, 2500]
      (by decide) (by decide)
      (by simp [List.chain'_cons, List.chain'_singleton])).2⟩

/-- C3 (code bug evidence): the tick guard `if (apiPromise)` tests a
Promise object, which is truthy in every settlement state, so the loop
reschedules itself after fulfilment and after rejection; moreover a
post-settlement tick overwrites the final progress of 100 with the
capped value 98. -/
theorem tickLoop_never_stops :
    animateContinues PromiseState.fulfilled = true ∧
    animateContinues PromiseState.rejected = true ∧
    (animateProgress [⟨"a", "Step A", 1⟩] 5000
        (initTick, ⟨JSNum.num 100, completeLabel, true⟩)).2.progress =
      JSNum.num 98 ∧
    JSNum.num 98 ≠ JSNum.num 100 := by
  refine ⟨rfl, rfl, ?_, by decide⟩
  norm_num [animateProgress, tickAdvance, targetStepOf, tickDisplay,
    tickProgressJS, rawProgressOf, totalWeightOf, weightAt,
    stepFractionOf, initTick, stepDuration, JSNum.div, JSNum.mul,
    JSNum.minC]

/-- C4: when the wrapped operation fulfils, `startDynamicProgress` sets
progress to exactly 100 and the terminal "complete" label, keeps
`isLoading` true and only schedules `setIsLoading(false)` behind the
fixed 500ms timeout (after which it is false), and returns the resolved
value unchanged. -/
theorem startDynamicProgress_success {ε α : Type}
    (steps : List ProgressStep) (sched : List ℕ) (d0 : DisplayState)
    (a : α) :
    (settleDyn (dynDisplayAfter steps sched d0)
      (Except.ok a : Except ε α)).1.progress = JSNum.num 100 ∧
    (settleDyn (dynDisplayAfter steps sched d0)
      (Except.ok a : Except ε α)).1.currentStep = completeLabel ∧
    (settleDyn (dynDisplayAfter steps sched d0)
      (Except.ok a : Except ε α)).1.isLoading = true ∧
    (settleDyn (dynDisplayAfter steps sched d0)
      (Except.ok a : Except ε α)).2.1 = some loadingFalseDelayMs ∧
    (afterLoadingTimeout (settleDyn (dynDisplayAfter steps sched d0)
      (Except.ok a : Except ε α)).1).isLoading = false ∧
    (settleDyn (dynDisplayAfter steps sched d0)
      (Except.ok a : Except ε α)).2.2 = Except.ok a := by
  refine ⟨rfl, rfl, ?_, rfl, rfl, rfl⟩
  simpa [settleDyn, dynDisplayAfter] using runDyn_isLoading steps sched d0

/-- C5: when the wrapped operation rejects, `isLoading` becomes false
with no scheduled delay, progress and the step label are left exactly
as they were at rejection time (no terminal label, no forced 100), and
the original error is propagated unchanged. -/
theorem startDynamicProgress_failure {ε α : Type}
    (steps : List ProgressStep) (sched : List ℕ) (d0 : DisplayState)
    (e : ε) :
    (settleDyn (dynDisplayAfter steps sched d0)
      (Except.error e : Except ε α)).1.isLoading = false ∧
    (settleDyn (dynDisplayAfter steps sched d0)
      (Except.error e : Except ε α)).2.1 = none ∧
    (settleDyn (dynDisplayAfter steps sched d0)
      (Except.error e : Except ε α)).1.progress =
      (dynDisplayAfter steps sched d0).progress ∧
    (settleDyn (dynDisplayAfter steps sched d0)
      (Except.error e : Except ε α)).1.currentStep =
      (dynDisplayAfter steps sched d0).currentStep ∧
    (settleDyn (dynDisplayAfter steps sched d0)
      (Except.error e : Except ε α)).2.2 = Except.error e :=
  ⟨rfl, rfl, rfl, rfl, rfl⟩

/-- C6: `completeProgress()` sets progress to 100 and the fixed
"complete" label, schedules `isLoading := false` after the fixed 500ms
delay, and is idempotent (in particular when progress is already 100). -/
theorem completeProgress_spec (d : DisplayState) :
    (completeProgress d).1.progress = JSNum.num 100 ∧
    (completeProgress d).1.currentStep = completeLabel ∧
    (completeProgress d).2 = loadingFalseDelayMs ∧
    (afterLoadingTimeout (completeProgress d).1).isLoading = false ∧
    completeProgress (completeProgress d).1 = completeProgress d :=
  ⟨rfl, rfl, rfl, rfl, rfl⟩

/-- C7: immediately after `resetProgress()` the progress is 0, the
current-step label is the empty string and `isLoading` is false, for
every prior state. -/
theorem resetProgress_spec (d : DisplayState) :
    (resetProgress d).progress = JSNum.num 0 ∧
    (resetProgress d).currentStep = "" ∧
    (resetProgress d).isLoading = false :=
  ⟨rfl, rfl, rfl⟩

/-- C8 (amended): the steps-only variant auto-completes on elapsed time
alone — after the awaited sum of the step durations it unconditionally
sets progress to 100 and, 500ms later, sets `isLoading` to false and
invokes the `onComplete` callback, with no explicit completion or reset
call from the caller. -/
theorem startProgress_auto_completes (steps : List DurationStep)
    (d : DisplayState) :
    (startProgressMainFlow steps d).display.progress = JSNum.num 100 ∧
    (startProgressMainFlow steps d).completionDelayMs = 500 ∧
    (part002AfterTimeout (startProgressMainFlow steps d)).isLoading =
      false ∧
    (startProgressMainFlow steps d).callsOnComplete = true ∧
    elapsedToTerminalMs steps = durTotalOf steps + 500 :=
  ⟨rfl, rfl, rfl, rfl, rfl⟩

/-- C8 (counterexample): for the single step `{id: "x", label:
"Working", duration: 2000}`, 2500ms of elapsed time alone brings
`startProgress` to progress 100 and `isLoading = false` without any
completion or reset call. -/
theorem startProgress_terminal_without_call :
    (startProgressMainFlow [⟨"x", "Working", 2000⟩]
      ⟨JSNum.num 0, "", false⟩).display.progress = JSNum.num 100 ∧
    (part002AfterTimeout (startProgressMainFlow [⟨"x", "Working", 2000⟩]
      ⟨JSNum.num 0, "", false⟩)).isLoading = false ∧
    elapsedToTerminalMs [⟨"x", "Working", 2000⟩] = 2500 :=
  ⟨rfl, rfl, by norm_num [elapsedToTerminalMs, durTotalOf]⟩

/-- C9 (amended): with a zero-total-weight step list (all weights zero)
no division error is raised — the tick is a total, deterministic
function — but each tick's computed progress is NaN (JavaScript 0/0),
not a jump to the cap. -/
theorem zeroWeight_tick_nan (steps : List ProgressStep) (st : TickState)
    (e : ℕ) (hw : ∀ s ∈ steps, s.weight = 0)
    (hc : st.currentWeight = 0) :
    tickProgressJS steps st e = JSNum.nan := by
  have hT : totalWeightOf steps = 0 := by
    unfold totalWeightOf
    apply List.sum_eq_zero
    intro x hx
    rcases List.mem_map.mp hx with ⟨s, hs2, rfl⟩
    exact hw s hs2
  have hwa : weightAt steps st.stepIndex = 0 := by
    unfold weightAt
    cases h : steps[st.stepIndex]? with
    | none => rfl
    | some s => simpa using hw s (List.getElem?_mem h)
  have hraw : rawProgressOf steps st e = 0 := by
    simp [rawProgressOf, hwa, hc]
  simp [tickProgressJS, hraw, hT, JSNum.div, JSNum.mul, JSNum.minC]

/-- C9 witness at a concrete degenerate input: one step of weight 0,
tick at 1000ms elapsed. -/
theorem zeroWeight_tick_nan_witness :
    (∀ s ∈ ([⟨"a", "Step A", 0⟩] : List ProgressStep), s.weight = 0) ∧
    tickProgressJS [⟨"a", "Step A", 0⟩] initTick 1000 = JSNum.nan :=
  ⟨by decide,
    zeroWeight_tick_nan [⟨"a", "Step A", 0⟩] initTick 1000 (by decide) rfl⟩

/-- C9 (counterexample): at the degenerate input the tick writes NaN,
which is not the cap 98 — the code performs no immediate jump to the
cap. -/
theorem zeroWeight_not_cap :
    (animateProgress [⟨"a", "Step A", 0⟩] 1000
        (initTick, ⟨JSNum.num 0, "", true⟩)).2.progress = JSNum.nan ∧
    JSNum.nan ≠ JSNum.num 98 := by
  refine ⟨?_, by decide⟩
  norm_num [animateProgress, tickAdvance, targetStepOf, tickDisplay,
    tickProgressJS, rawProgressOf, totalWeightOf, weightAt,
    stepFractionOf, initTick, stepDuration, JSNum.div, JSNum.mul,
    JSNum.minC]

/-- C10: within a run of `startDynamicProgress` the stored step index
never decreases across a tick, the target index is clamped to the last
valid index, the stored index is reassigned only when the target
strictly exceeds it, and the written label is the label of the stored
(non-decreased) index. -/
theorem stepIndex_monotone (steps : List ProgressStep) (e : ℕ)
    (st : TickState) (d : DisplayState) :
    st.stepIndex ≤ (tickAdvance steps e st).stepIndex ∧
    targetStepOf steps e ≤ (steps.length : ℤ) - 1 ∧
    (targetStepOf steps e ≤ (st.stepIndex : ℤ) →
      tickAdvance steps e st = st) ∧
    ((tickAdvance steps e st).stepIndex < steps.length →
      (tickDisplay steps e (tickAdvance steps e st) d).currentStep =
        labelAt steps (tickAdvance steps e st).stepIndex) := by
  refine ⟨?_, min_le_right _ _, ?_, ?_⟩
  · unfold tickAdvance
    split
    case isTrue h => simp only; omega
    case isFalse _ => exact le_refl _
  · intro h
    unfold tickAdvance
    rw [if_neg (not_lt.mpr h)]
  · intro h
    unfold tickDisplay
    rw [if_pos h]

/-- C10 witness at a concrete tick: one step of weight 1, tick at 0ms. -/
theorem stepIndex_monotone_witness :
    initTick.stepIndex ≤
      (tickAdvance [⟨"a", "Step A", 1⟩] 0 initTick).stepIndex ∧
    targetStepOf [⟨"a", "Step A", 1⟩] 0 ≤
      (([⟨"a", "Step A", 1⟩] : List ProgressStep).length : ℤ) - 1 ∧
    (targetStepOf [⟨"a", "Step A", 1⟩] 0 ≤ (initTick.stepIndex : ℤ) →
      tickAdvance [⟨"a", "Step A", 1⟩] 0 initTick = initTick) ∧
    ((tickAdvance [⟨"a", "Step A", 1⟩] 0 initTick).stepIndex <
        ([⟨"a", "Step A", 1⟩] : List ProgressStep).length →
      (tickDisplay [⟨"a", "Step A", 1⟩] 0
          (tickAdvance [⟨"a", "Step A", 1⟩] 0 initTick)
          ⟨JSNum.num 0, "", true⟩).currentStep =
        labelAt [⟨"a", "Step A", 1⟩]
          (tickAdvance [⟨"a", "Step A", 1⟩] 0 initTick).stepIndex) :=
  stepIndex_monotone [⟨"a", "Step A", 1⟩] 0 initTick ⟨JSNum.num 0, "", true⟩
